import Mathlib

/-
Verification of the openssl-enc demo (demos/openssl-enc.c).

The development shallowly embeds the program over pure byte lists.
Bytes are Nat values; a FILE stream is a pure list of bytes together
with the stdio end-of-file convention: a read of n bytes delivers
min n available bytes, and the end-of-file indicator becomes set
exactly when the read asked for more bytes than were available.
Read errors (ferror) and short writes are outside the pure-stream
model; every claim here concerns error-free streams.

The external library primitives called by the demo (padding_pad,
padding_depad, cbc_encrypt, cbc_decrypt and the AES block function)
are not part of the sources; they are modelled from the spec, with
the block function kept as an explicit parameter.
-/

set_option maxRecDepth 10000

/-- Translated from src: the constant salt_header, the 8 ASCII bytes of
the string Salted__ that OpenSSL places at the start of an encrypted
file. -/
def salt_header : List Nat := [83, 97, 108, 116, 101, 100, 95, 95]

/-- Translated from src: parse_openssl_header reads 8 bytes, compares
them with salt_header, then reads 8 more bytes as the salt.  The result
is the parsed salt (none on any failure) paired with the number of bytes
consumed from the stream: a short first read consumes all available
bytes, a magic mismatch consumes exactly the 8 bytes of the first read,
a short second read consumes all available bytes, and success consumes
exactly 16 bytes. -/
def parse_openssl_header (input : List Nat) : Option (List Nat) × Nat :=
  if input.length < 8 then (none, input.length)
  else if input.take 8 ≠ salt_header then (none, 8)
  else if input.length < 16 then (none, input.length)
  else (some ((input.drop 8).take 8), 16)

/-- Modelled from the spec: padding_pad computes PKCS#7 padding for the
given data within a buffer of the given capacity.  The padding length p
is blockLen minus the data length modulo blockLen, always between 1 and
blockLen; the call fails when the capacity cannot hold the padded data,
and otherwise appends p bytes each holding the value p. -/
def padding_pad (data : List Nat) (capacity blockLen : Nat) : Option (List Nat) :=
  let p := blockLen - data.length % blockLen
  if data.length + p ≤ capacity then some (data ++ List.replicate p p) else none

/-- Modelled from the spec: padding_depad reads the last byte of the
data as the padding count p and fails when p is zero, when p exceeds the
data length, or when any of the last p bytes differs from p; otherwise
it strips the last p bytes. -/
def padding_depad (data : List Nat) : Option (List Nat) :=
  match data.getLast? with
  | none => none
  | some p =>
    if p = 0 then none
    else if data.length < p then none
    else if ∀ x ∈ data.drop (data.length - p), x = p then
      some (data.take (data.length - p))
    else none

/-- The padding primitive as invoked by s_pkcs7_pad in the source: the
capacity is the size of the pad view of the union buffer, one chunk of
1024 bytes plus room for one extra cipher block, and the block length is
the AES block length 16. -/
def pad_prim (data : List Nat) : Option (List Nat) :=
  padding_pad data (1024 + 16) 16

/-- The unpadding primitive as invoked by s_pkcs7_pad in the source. -/
def depad_prim : List Nat → Option (List Nat) :=
  padding_depad

/-- Translated from src: s_pkcs7_pad pads or unpads a buffer through the
library padding primitives (here explicit parameters padP and depadP).
The C function returns the new length, with 0 as the failure value; the
model returns the byte list of that length, so a primitive failure
yields the empty list. -/
def s_pkcs7_pad (padP depadP : List Nat → Option (List Nat))
    (data : List Nat) (is_padding : Bool) : List Nat :=
  if is_padding then (padP data).getD [] else (depadP data).getD []

/-- Byte-wise xor of two blocks, truncating to the shorter one. -/
def xor_block (a b : List Nat) : List Nat :=
  List.zipWith Nat.xor a b

/-- Splits a byte list into consecutive blocks of 16 bytes (the last
block may be shorter when the length is not a multiple of 16).  The
first argument is fuel bounding the recursion; each step consumes at
least one byte, so fuel equal to the length suffices. -/
def blocks16_aux : Nat → List Nat → List (List Nat)
  | 0, _ => []
  | n + 1, l => if l = [] then [] else l.take 16 :: blocks16_aux n (l.drop 16)

/-- Splits a byte list into consecutive 16-byte blocks. -/
def blocks16 (l : List Nat) : List (List Nat) :=
  blocks16_aux l.length l

/-- Modelled from the spec: CBC encryption over a list of plaintext
blocks.  Each ciphertext block is the block function E applied to the
xor of the running chaining value with the plaintext block, and the
chaining value advances to that ciphertext block.  Returns the
ciphertext blocks and the final chaining value. -/
def cbc_enc_blocks (E : List Nat → List Nat) (chain : List Nat) :
    List (List Nat) → List (List Nat) × List Nat
  | [] => ([], chain)
  | p :: ps =>
    let c := E (xor_block chain p)
    let r := cbc_enc_blocks E c ps
    (c :: r.1, r.2)

/-- Modelled from the spec: CBC decryption over a list of ciphertext
blocks.  Each plaintext block is the xor of the running chaining value
with the block function D applied to the ciphertext block, and the
chaining value advances to the ciphertext block just consumed. -/
def cbc_dec_blocks (D : List Nat → List Nat) (chain : List Nat) :
    List (List Nat) → List (List Nat) × List Nat
  | [] => ([], chain)
  | c :: cs =>
    let p := xor_block chain (D c)
    let r := cbc_dec_blocks D c cs
    (p :: r.1, r.2)

/-- Modelled from the spec: the CBC primitive operates on 16-byte blocks
and rejects a length that is not a multiple of the block length.  On
success it returns the transformed bytes and the new chaining value. -/
def cbc_encrypt (E : List Nat → List Nat) (chain data : List Nat) :
    Option (List Nat × List Nat) :=
  if data.length % 16 = 0 then
    let r := cbc_enc_blocks E chain (blocks16 data)
    some (r.1.flatten, r.2)
  else none

/-- Modelled from the spec: CBC decryption of a byte list, rejecting a
length that is not a multiple of the block length. -/
def cbc_decrypt (D : List Nat → List Nat) (chain data : List Nat) :
    Option (List Nat × List Nat) :=
  if data.length % 16 = 0 then
    let r := cbc_dec_blocks D chain (blocks16 data)
    some (r.1.flatten, r.2)
  else none

/-- Translated from src: the read/transform/write loop of do_crypt.
Each iteration reads up to 1024 bytes from the remaining input; a read
that asks for more bytes than remain sets the end-of-file indicator, so
a full 1024-byte read (even one that exhausts the input exactly) does
not observe end-of-file and the loop runs again.  A zero-byte read
returns success when encrypting and failure when decrypting.  When
encrypting, the chunk is padded through s_pkcs7_pad if this read
observed end-of-file, then enciphered; when decrypting, the chunk is
deciphered and then unpadded if this read observed end-of-file, and a
resulting byte count of zero is failure.  The result pairs the bytes
written to the output stream (none on failure) with the number of
s_pkcs7_pad invocations performed, a ghost counter used to state the
padding-placement claims.  The first argument is fuel: every iteration
either terminates the loop or consumes 1024 bytes, so fuel exceeding
the input length suffices and the out-of-fuel branch is unreachable
from do_crypt. -/
def do_crypt_loop (encrypt : Bool) (E D : List Nat → List Nat)
    (padP depadP : List Nat → Option (List Nat)) :
    Nat → List Nat → List Nat → Option (List Nat) × Nat
  | 0, _, _ => (none, 0)
  | fuel + 1, chain, input =>
    if 1024 ≤ input.length then
      -- full-chunk read: the end-of-file indicator is not set
      if encrypt then
        match cbc_encrypt E chain (input.take 1024) with
        | none => (none, 0)
        | some (ct, chain2) =>
          let r := do_crypt_loop encrypt E D padP depadP fuel chain2 (input.drop 1024)
          (r.1.map (fun out => ct ++ out), r.2)
      else
        match cbc_decrypt D chain (input.take 1024) with
        | none => (none, 0)
        | some (pt, chain2) =>
          if pt.length = 0 then (none, 0)
          else
            let r := do_crypt_loop encrypt E D padP depadP fuel chain2 (input.drop 1024)
            (r.1.map (fun out => pt ++ out), r.2)
    else if input.length = 0 then
      -- zero-byte read
      (if encrypt then some [] else none, 0)
    else
      -- partial-chunk read: this read sets the end-of-file indicator
      if encrypt then
        let data := s_pkcs7_pad padP depadP input true
        match cbc_encrypt E chain data with
        | none => (none, 1)
        | some (ct, _) => (some ct, 1)
      else
        match cbc_decrypt D chain input with
        | none => (none, 0)
        | some (pt, _) =>
          let data := s_pkcs7_pad padP depadP pt false
          if data.length = 0 then (none, 1) else (some data, 1)

/-- Translated from src: do_crypt runs the loop from the initial CBC
chaining value (the IV) over the whole input stream.  The cipher
registration and cbc_start steps of the source cannot fail in the
pure model and are omitted. -/
def do_crypt (encrypt : Bool) (E D : List Nat → List Nat)
    (padP depadP : List Nat → Option (List Nat))
    (iv input : List Nat) : Option (List Nat) × Nat :=
  do_crypt_loop encrypt E D padP depadP (input.length + 1) iv input

/-- The externally visible actions of main that the claims talk about,
in the order the program performs them. -/
inductive MainAction
  | openIn
  | openOut
  | decodeSalt
  | getSaltRng
  | readHeader
  | registerHash
  | zeroKeyiv
  | getPassword
  | deriveKey
  | writeHeader
  | writeSalt
  | runCrypt
  | freePassword
  | closeIn
  | closeOut
  | removeOut
deriving DecidableEq, Repr

/-- The outcomes of the fallible external calls made by main, fixed up
front so that the control flow of main becomes a pure function. -/
structure MainEnv where
  argc : Nat
  arg1_has_h : Bool
  arg1_enc : Bool
  arg1_dec : Bool
  in_opens : Bool
  out_opens : Bool
  salt_decode_ok : Bool
  rng_ok : Bool
  header_ok : Bool
  hash_ok : Bool
  pass_dash : Bool
  getpw_ok : Bool
  kdf_ok : Bool
  write_header_ok : Bool
  write_salt_ok : Bool
  crypt_ok : Bool

/-- Translated from src: the cleanup performed by the BARF macro before
it calls barf and exits with status -1: free the password if one was
allocated, close the input file if open, and close and remove the
output file if open. -/
def barf_actions (pw inOpen outOpen : Bool) : List MainAction :=
  (if pw then [MainAction.freePassword] else [])
    ++ (if inOpen then [MainAction.closeIn] else [])
    ++ (if outOpen then [MainAction.closeOut, MainAction.removeOut] else [])

/-- Translated from src: the control flow of main as a pure function of
the outcomes of its external calls.  The result is the list of actions
performed before the process exits, paired with the exit status: 0 for
the usage path and the success path, -1 for every BARF path.  Printing
of the usage text, of the salt, key and iv, and the reading of argv are
not modelled as actions. -/
def main_run (e : MainEnv) : List MainAction × Int :=
  if 1 < e.argc ∧ e.arg1_has_h then
    ([], 0)
  else if ¬ (5 ≤ e.argc ∧ e.argc ≤ 6) then
    (barf_actions false false false, -1)
  else if ¬ (e.arg1_enc ∨ e.arg1_dec) then
    (barf_actions false false false, -1)
  else if ¬ e.in_opens then
    (barf_actions false false false, -1)
  else if ¬ e.out_opens then
    ([MainAction.openIn] ++ barf_actions false true false, -1)
  else
    -- both files are open from here on
    let pre := [MainAction.openIn, MainAction.openOut]
    -- salt acquisition: from the command line, from the rng, or from the
    -- input file header, with the attempted call always recorded
    let saltAct : MainAction :=
      if e.argc = 6 then MainAction.decodeSalt
      else if e.arg1_enc then MainAction.getSaltRng
      else MainAction.readHeader
    let saltOk : Bool :=
      if e.argc = 6 then e.salt_decode_ok
      else if e.arg1_enc then e.rng_ok
      else e.header_ok
    if ¬ saltOk then
      (pre ++ [saltAct] ++ barf_actions false true true, -1)
    else
      if ¬ e.hash_ok then
        (pre ++ [saltAct, MainAction.registerHash] ++ barf_actions false true true, -1)
      else
        let t1 := pre ++ [saltAct, MainAction.registerHash, MainAction.zeroKeyiv]
        -- password acquisition; the line 339 zeromem of the keyiv buffer
        -- is the zeroKeyiv action just recorded
        if e.pass_dash ∧ ¬ e.getpw_ok then
          (t1 ++ [MainAction.getPassword] ++ barf_actions false true true, -1)
        else
          let pw := e.pass_dash
          let t2 := t1 ++ (if e.pass_dash then [MainAction.getPassword] else [])
          if ¬ e.kdf_ok then
            (t2 ++ [MainAction.deriveKey] ++ barf_actions pw true true, -1)
          else
            let t3 := t2 ++ [MainAction.deriveKey]
            if e.arg1_enc then
              if ¬ e.write_header_ok then
                (t3 ++ [MainAction.writeHeader] ++ barf_actions pw true true, -1)
              else if ¬ e.write_salt_ok then
                (t3 ++ [MainAction.writeHeader, MainAction.writeSalt]
                  ++ barf_actions pw true true, -1)
              else
                let t4 := t3 ++ [MainAction.writeHeader, MainAction.writeSalt]
                if ¬ e.crypt_ok then
                  (t4 ++ [MainAction.runCrypt] ++ barf_actions pw true true, -1)
                else
                  (t4 ++ [MainAction.runCrypt]
                    ++ (if pw then [MainAction.freePassword] else [])
                    ++ [MainAction.closeIn, MainAction.closeOut], 0)
            else
              if ¬ e.crypt_ok then
                (t3 ++ [MainAction.runCrypt] ++ barf_actions pw true true, -1)
              else
                (t3 ++ [MainAction.runCrypt]
                  ++ (if pw then [MainAction.freePassword] else [])
                  ++ [MainAction.closeIn, MainAction.closeOut], 0)

/-- A run of main in which every external call succeeds, encrypting with
a random salt and a command-line passphrase. -/
def env_success : MainEnv where
  argc := 5
  arg1_has_h := false
  arg1_enc := true
  arg1_dec := false
  in_opens := true
  out_opens := true
  salt_decode_ok := true
  rng_ok := true
  header_ok := true
  hash_ok := true
  pass_dash := false
  getpw_ok := true
  kdf_ok := true
  write_header_ok := true
  write_salt_ok := true
  crypt_ok := true

/-- A run of main in which opening the input file fails. -/
def env_no_infile : MainEnv :=
  { env_success with in_opens := false }

/-- A decrypting run of main in which do_crypt fails. -/
def env_crypt_fails : MainEnv :=
  { env_success with arg1_enc := false, arg1_dec := true, crypt_ok := false }
lemma length_xor_block (a b : List Nat) : (xor_block a b).length = min a.length b.length := by
  simp [xor_block]

lemma blocks16_aux_congr : ∀ (n m : Nat) (l : List Nat), l.length ≤ n → l.length ≤ m →
    blocks16_aux n l = blocks16_aux m l := by
  intro n
  induction n with
  | zero =>
    intro m l hn hm
    have hl : l = [] := List.length_eq_zero.mp (Nat.le_zero.mp hn)
    subst hl
    cases m <;> simp [blocks16_aux]
  | succ n ih =>
    intro m l hn hm
    cases m with
    | zero =>
      have hl : l = [] := List.length_eq_zero.mp (Nat.le_zero.mp hm)
      subst hl
      simp [blocks16_aux]
    | succ m =>
      by_cases hl : l = []
      · subst hl; simp [blocks16_aux]
      · have h1 : 1 ≤ l.length := by
          cases l with
          | nil => exact absurd rfl hl
          | cons a t => simp
        simp only [blocks16_aux, if_neg hl]
        congr 1
        exact ih m (l.drop 16) (by simp [List.length_drop]; omega) (by simp [List.length_drop]; omega)

lemma blocks16_cons (l : List Nat) (h : l ≠ []) :
    blocks16 l = l.take 16 :: blocks16 (l.drop 16) := by
  have h1 : 1 ≤ l.length := by
    cases l with
    | nil => exact absurd rfl h
    | cons a t => simp
  obtain ⟨k, hk⟩ := Nat.exists_eq_succ_of_ne_zero (show l.length ≠ 0 by omega)
  unfold blocks16
  rw [show blocks16_aux l.length l = blocks16_aux (k + 1) l from by rw [hk]]
  simp only [blocks16_aux, if_neg h]
  congr 1
  exact blocks16_aux_congr k ((l.drop 16).length) (l.drop 16)
    (by simp [List.length_drop]; omega) le_rfl

lemma blocks16_flatten_aux : ∀ (n : Nat) (l : List Nat), l.length ≤ n →
    (blocks16 l).flatten = l := by
  intro n
  induction n with
  | zero =>
    intro l h
    have hl : l = [] := List.length_eq_zero.mp (Nat.le_zero.mp h)
    subst hl; rfl
  | succ n ih =>
    intro l h
    by_cases hl : l = []
    · subst hl; rfl
    · rw [blocks16_cons l hl]
      have h1 : 1 ≤ l.length := by
        cases l with
        | nil => exact absurd rfl hl
        | cons a t => simp
      simp only [List.flatten_cons]
      rw [ih (l.drop 16) (by simp [List.length_drop]; omega)]
      exact List.take_append_drop 16 l

lemma blocks16_flatten (l : List Nat) : (blocks16 l).flatten = l :=
  blocks16_flatten_aux l.length l le_rfl

lemma blocks16_all16_aux : ∀ (n : Nat) (l : List Nat), l.length ≤ n → l.length % 16 = 0 →
    ∀ b ∈ blocks16 l, b.length = 16 := by
  intro n
  induction n with
  | zero =>
    intro l h _ b hb
    have hl : l = [] := List.length_eq_zero.mp (Nat.le_zero.mp h)
    subst hl; simp [blocks16, blocks16_aux] at hb
  | succ n ih =>
    intro l h hmod b hb
    by_cases hl : l = []
    · subst hl; simp [blocks16, blocks16_aux] at hb
    · have h1 : 1 ≤ l.length := by
        cases l with
        | nil => exact absurd rfl hl
        | cons a t => simp
      rw [blocks16_cons l hl] at hb
      rcases List.mem_cons.mp hb with hb1 | hb2
      · subst hb1
        simp [List.length_take]
        omega
      · exact ih (l.drop 16) (by simp [List.length_drop]; omega)
          (by simp [List.length_drop]; omega) b hb2

lemma blocks16_all16 (l : List Nat) (h : l.length % 16 = 0) :
    ∀ b ∈ blocks16 l, b.length = 16 :=
  blocks16_all16_aux l.length l le_rfl h

lemma flatten_all16_length : ∀ (bs : List (List Nat)), (∀ b ∈ bs, b.length = 16) →
    bs.flatten.length = 16 * bs.length := by
  intro bs
  induction bs with
  | nil => simp
  | cons b t ih =>
    intro h
    have hb : b.length = 16 := h b (by simp)
    have ht := ih (fun x hx => h x (by simp [hx]))
    simp [List.length_append, hb, ht]
    ring

lemma cbc_enc_blocks_spec (E : List Nat → List Nat)
    (hE : ∀ b, b.length = 16 → (E b).length = 16) :
    ∀ (bs : List (List Nat)) (chain : List Nat), chain.length = 16 →
      (∀ b ∈ bs, b.length = 16) →
      (cbc_enc_blocks E chain bs).1.length = bs.length ∧
      (∀ c ∈ (cbc_enc_blocks E chain bs).1, c.length = 16) ∧
      (cbc_enc_blocks E chain bs).2.length = 16 := by
  intro bs
  induction bs with
  | nil =>
    intro chain hc _
    simp [cbc_enc_blocks, hc]
  | cons p ps ih =>
    intro chain hc hb
    have hp : p.length = 16 := hb p (by simp)
    have hcl : (E (xor_block chain p)).length = 16 :=
      hE _ (by simp [length_xor_block, hc, hp])
    have hrest := ih (E (xor_block chain p)) hcl (fun b h => hb b (by simp [h]))
    simp only [cbc_enc_blocks]
    refine ⟨by simp [hrest.1], ?_, hrest.2.2⟩
    intro c hcmem
    simp only [List.mem_cons] at hcmem
    rcases hcmem with h | h
    · subst h; exact hcl
    · exact hrest.2.1 c h

lemma cbc_dec_blocks_spec (D : List Nat → List Nat)
    (hD : ∀ b, b.length = 16 → (D b).length = 16) :
    ∀ (bs : List (List Nat)) (chain : List Nat), chain.length = 16 →
      (∀ b ∈ bs, b.length = 16) →
      (cbc_dec_blocks D chain bs).1.length = bs.length ∧
      (∀ c ∈ (cbc_dec_blocks D chain bs).1, c.length = 16) ∧
      (cbc_dec_blocks D chain bs).2.length = 16 := by
  intro bs
  induction bs with
  | nil =>
    intro chain hc _
    simp [cbc_dec_blocks, hc]
  | cons c cs ih =>
    intro chain hc hb
    have hcl : c.length = 16 := hb c (by simp)
    have hpl : (xor_block chain (D c)).length = 16 := by
      simp [length_xor_block, hc, hD c hcl]
    have hrest := ih c hcl (fun b h => hb b (by simp [h]))
    simp only [cbc_dec_blocks]
    refine ⟨by simp [hrest.1], ?_, hrest.2.2⟩
    intro x hx
    simp only [List.mem_cons] at hx
    rcases hx with h | h
    · subst h; exact hpl
    · exact hrest.2.1 x h

lemma cbc_encrypt_spec (E : List Nat → List Nat)
    (hE : ∀ b, b.length = 16 → (E b).length = 16)
    (chain data : List Nat) (hc : chain.length = 16) (hd : data.length % 16 = 0) :
    ∃ ct chain2, cbc_encrypt E chain data = some (ct, chain2) ∧
      ct.length = data.length ∧ chain2.length = 16 := by
  have hblocks := blocks16_all16 data hd
  have hspec := cbc_enc_blocks_spec E hE (blocks16 data) chain hc hblocks
  refine ⟨(cbc_enc_blocks E chain (blocks16 data)).1.flatten,
    (cbc_enc_blocks E chain (blocks16 data)).2, ?_, ?_, hspec.2.2⟩
  · simp [cbc_encrypt, hd]
  · rw [flatten_all16_length _ hspec.2.1, hspec.1]
    have h2 := flatten_all16_length (blocks16 data) hblocks
    rw [blocks16_flatten] at h2
    omega

lemma cbc_decrypt_spec (D : List Nat → List Nat)
    (hD : ∀ b, b.length = 16 → (D b).length = 16)
    (chain data : List Nat) (hc : chain.length = 16) (hd : data.length % 16 = 0) :
    ∃ pt chain2, cbc_decrypt D chain data = some (pt, chain2) ∧
      pt.length = data.length ∧ chain2.length = 16 := by
  have hblocks := blocks16_all16 data hd
  have hspec := cbc_dec_blocks_spec D hD (blocks16 data) chain hc hblocks
  refine ⟨(cbc_dec_blocks D chain (blocks16 data)).1.flatten,
    (cbc_dec_blocks D chain (blocks16 data)).2, ?_, ?_, hspec.2.2⟩
  · simp [cbc_decrypt, hd]
  · rw [flatten_all16_length _ hspec.2.1, hspec.1]
    have h2 := flatten_all16_length (blocks16 data) hblocks
    rw [blocks16_flatten] at h2
    omega

lemma padding_depad_spec (data d : List Nat) (h : padding_depad data = some d) :
    ∃ p, 1 ≤ p ∧ p ≤ data.length ∧ d.length = data.length - p := by
  unfold padding_depad at h
  cases hg : data.getLast? with
  | none => rw [hg] at h; cases h
  | some p =>
    rw [hg] at h
    dsimp only at h
    split_ifs at h with h1 h2 h3
    injection h with h4
    subst h4
    exact ⟨p, by omega, by omega, by rw [List.length_take]; omega⟩

lemma enc_char (E D : List Nat → List Nat)
    (hE : ∀ b, b.length = 16 → (E b).length = 16) :
    ∀ (fuel : Nat) (chain input : List Nat), input.length < fuel → chain.length = 16 →
      ∃ out, do_crypt_loop true E D pad_prim depad_prim fuel chain input
          = (some out, if input.length % 1024 = 0 then 0 else 1) ∧
        out.length = (if input.length % 1024 = 0 then input.length
          else input.length + (16 - input.length % 16)) := by
  intro fuel
  induction fuel with
  | zero => intro chain input h; omega
  | succ fuel ih =>
    intro chain input hfuel hc
    by_cases h1 : 1024 ≤ input.length
    · -- full-chunk iteration
      have htake : (input.take 1024).length = 1024 := by
        rw [List.length_take]; omega
      obtain ⟨ct, c2, hcbc, hctlen, hc2⟩ :=
        cbc_encrypt_spec E hE chain (input.take 1024) hc (by rw [htake])
      have hdlen : (input.drop 1024).length = input.length - 1024 := by
        rw [List.length_drop]
      obtain ⟨out2, hrec, hlen2⟩ :=
        ih c2 (input.drop 1024) (by omega) hc2
      have hmodeq : (input.drop 1024).length % 1024 = input.length % 1024 := by
        rw [hdlen]; omega
      have hmodeq16 : (input.drop 1024).length % 16 = input.length % 16 := by
        rw [hdlen]; omega
      rw [hmodeq] at hrec
      rw [hmodeq, hmodeq16, hdlen] at hlen2
      refine ⟨ct ++ out2, ?_, ?_⟩
      · simp only [do_crypt_loop, if_pos h1]
        rw [if_pos trivial, hcbc]
        dsimp only
        rw [hrec]
        rfl
      · rw [List.length_append, hctlen, htake]
        by_cases hz : input.length % 1024 = 0
        · rw [if_pos hz]
          rw [if_pos hz] at hlen2
          omega
        · rw [if_neg hz]
          rw [if_neg hz] at hlen2
          omega
    · by_cases h0 : input.length = 0
      · -- zero-byte read
        refine ⟨[], ?_, ?_⟩
        · simp [do_crypt_loop, if_neg h1, h0]
        · simp [h0]
      · -- final partial chunk
        have hlt : input.length < 1024 := by omega
        have hpos : 0 < input.length := Nat.pos_of_ne_zero h0
        have hpadp : pad_prim input
            = some (input ++ List.replicate (16 - input.length % 16) (16 - input.length % 16)) := by
          unfold pad_prim padding_pad
          dsimp only
          rw [if_pos (by omega)]
        have hdata : s_pkcs7_pad pad_prim depad_prim input true
            = input ++ List.replicate (16 - input.length % 16) (16 - input.length % 16) := by
          simp [s_pkcs7_pad, hpadp]
        have hdmod : (input ++ List.replicate (16 - input.length % 16) (16 - input.length % 16)).length % 16 = 0 := by
          rw [List.length_append, List.length_replicate]
          omega
        obtain ⟨ct, c2, hcbc, hctlen, _⟩ :=
          cbc_encrypt_spec E hE chain _ hc hdmod
        refine ⟨ct, ?_, ?_⟩
        · simp only [do_crypt_loop, if_neg h1, if_neg h0]
          rw [if_pos trivial]
          rw [hdata, hcbc]
          dsimp only
          rw [if_neg (show ¬ input.length % 1024 = 0 by omega)]
        · rw [hctlen, List.length_append, List.length_replicate]
          rw [if_neg (by omega)]

lemma dec_char (E D : List Nat → List Nat)
    (hD : ∀ b, b.length = 16 → (D b).length = 16) :
    ∀ (fuel : Nat) (chain input : List Nat), input.length < fuel → chain.length = 16 →
      (do_crypt_loop false E D pad_prim depad_prim fuel chain input).2 ≤ 1 ∧
      (input.length % 1024 = 0 →
        do_crypt_loop false E D pad_prim depad_prim fuel chain input = (none, 0)) ∧
      (∀ out, (do_crypt_loop false E D pad_prim depad_prim fuel chain input).1 = some out →
        input.length % 1024 ≠ 0 ∧
        ∃ p, 1 ≤ p ∧ p ≤ input.length % 1024 ∧ out.length = input.length - p) := by
  intro fuel
  induction fuel with
  | zero => intro chain input h; exact absurd h (by omega)
  | succ fuel ih =>
    intro chain input hfuel hc
    by_cases h1 : 1024 ≤ input.length
    · -- full-chunk iteration
      have htake : (input.take 1024).length = 1024 := by
        rw [List.length_take]; omega
      obtain ⟨pt, c2, hcbc, hptlen, hc2⟩ :=
        cbc_decrypt_spec D hD chain (input.take 1024) hc (by rw [htake])
      have hptne : ¬ pt.length = 0 := by rw [hptlen, htake]; omega
      have hdlen : (input.drop 1024).length = input.length - 1024 := by
        rw [List.length_drop]
      obtain ⟨ha, hb, hco⟩ := ih c2 (input.drop 1024) (by omega) hc2
      have hmodeq : (input.drop 1024).length % 1024 = input.length % 1024 := by
        rw [hdlen]; omega
      have hloop : do_crypt_loop false E D pad_prim depad_prim (fuel + 1) chain input
          = ((do_crypt_loop false E D pad_prim depad_prim fuel c2 (input.drop 1024)).1.map
              (fun out => pt ++ out),
             (do_crypt_loop false E D pad_prim depad_prim fuel c2 (input.drop 1024)).2) := by
        simp only [do_crypt_loop, if_pos h1]
        rw [if_neg (by simp), hcbc]
        dsimp only
        rw [if_neg hptne]
      rw [hloop]
      refine ⟨ha, ?_, ?_⟩
      · intro hz
        rw [hb (by omega)]
        rfl
      · intro out hout
        simp only [Option.map_eq_some'] at hout
        obtain ⟨out2, hr1, hout2⟩ := hout
        obtain ⟨hne, p, hp1, hp2, hlen⟩ := hco out2 hr1
        rw [hmodeq] at hne hp2
        refine ⟨hne, p, hp1, hp2, ?_⟩
        rw [← hout2, List.length_append, hptlen, htake]
        have hple : (input.length - 1024) % 1024 ≤ input.length - 1024 := Nat.mod_le _ _
        rw [hdlen] at hlen
        omega
    · by_cases h0 : input.length = 0
      · -- zero-byte read fails in decrypt mode
        have hloop : do_crypt_loop false E D pad_prim depad_prim (fuel + 1) chain input
            = (none, 0) := by
          simp [do_crypt_loop, if_neg h1, h0]
        rw [hloop]
        exact ⟨by omega, fun _ => rfl, fun out hout => by cases hout⟩
      · -- final partial chunk
        have hlt : input.length < 1024 := by omega
        have hpos : 0 < input.length := Nat.pos_of_ne_zero h0
        by_cases hm : input.length % 16 = 0
        · obtain ⟨pt, c2, hcbc, hptlen, _⟩ :=
            cbc_decrypt_spec D hD chain input hc hm
          have hloop : do_crypt_loop false E D pad_prim depad_prim (fuel + 1) chain input
              = (if (s_pkcs7_pad pad_prim depad_prim pt false).length = 0
                  then (none, 1)
                  else (some (s_pkcs7_pad pad_prim depad_prim pt false), 1)) := by
            simp only [do_crypt_loop, if_neg h1, if_neg h0]
            rw [if_neg (by simp), hcbc]
          rw [hloop]
          by_cases hd0 : (s_pkcs7_pad pad_prim depad_prim pt false).length = 0
          · rw [if_pos hd0]
            exact ⟨by omega, fun hz => absurd hz (by omega), fun out hout => by cases hout⟩
          · rw [if_neg hd0]
            refine ⟨by omega, fun hz => absurd hz (by omega), ?_⟩
            intro out hout
            injection hout with hout
            refine ⟨by omega, ?_⟩
            cases hdp : padding_depad pt with
            | none =>
              exfalso
              apply hd0
              simp [s_pkcs7_pad, depad_prim, hdp]
            | some d =>
              have hdata : s_pkcs7_pad pad_prim depad_prim pt false = d := by
                simp [s_pkcs7_pad, depad_prim, hdp]
              obtain ⟨p, hp1, hp2, hlen⟩ := padding_depad_spec pt d hdp
              refine ⟨p, hp1, ?_, ?_⟩
              · rw [hptlen] at hp2; omega
              · rw [← hout, hdata, hlen, hptlen]
        · -- cbc_decrypt rejects a final chunk whose length is not a
          -- multiple of the block length
          have hcbc : cbc_decrypt D chain input = none := by
            simp [cbc_decrypt, hm]
          have hloop : do_crypt_loop false E D pad_prim depad_prim (fuel + 1) chain input
              = (none, 0) := by
            simp only [do_crypt_loop, if_neg h1, if_neg h0]
            rw [if_neg (by simp), hcbc]
          rw [hloop]
          exact ⟨by omega, fun hz => absurd hz (by omega), fun out hout => by cases hout⟩


lemma xor_block_cancel (a b : List Nat) (h : a.length = b.length) :
    xor_block a (xor_block a b) = b := by
  induction a generalizing b with
  | nil =>
    cases b with
    | nil => rfl
    | cons y ys => simp at h
  | cons x xs ih =>
    cases b with
    | nil => simp at h
    | cons y ys =>
      simp only [xor_block, List.zipWith_cons_cons]
      congr 1
      · show x ^^^ (x ^^^ y) = y
        rw [← Nat.xor_assoc, Nat.xor_self, Nat.zero_xor]
      · exact ih ys (by simpa using h)

lemma replicate_getLast? (n x : Nat) : (List.replicate (n + 1) x).getLast? = some x := by
  induction n with
  | zero => rfl
  | succ m ih =>
    rw [List.replicate_succ]
    rw [show x :: List.replicate (m + 1) x = [x] ++ List.replicate (m + 1) x from rfl]
    rw [List.getLast?_append_of_ne_nil _ (by simp), ih]

lemma depad_pad (data : List Nat) :
    padding_depad
        (data ++ List.replicate (16 - data.length % 16) (16 - data.length % 16))
      = some data := by
  have hm : data.length % 16 < 16 := Nat.mod_lt _ (by omega)
  set p := 16 - data.length % 16 with hp
  have hp1 : 1 ≤ p := by omega
  obtain ⟨k, hk⟩ := Nat.exists_eq_succ_of_ne_zero (show p ≠ 0 by omega)
  have hlast : (data ++ List.replicate p p).getLast? = some p := by
    rw [List.getLast?_append_of_ne_nil _ (by simp [hk]), hk, replicate_getLast?]
  have hlen : (data ++ List.replicate p p).length = data.length + p := by
    simp
  unfold padding_depad
  rw [hlast]
  dsimp only
  rw [if_neg (by omega), if_neg (by omega)]
  rw [if_pos, show (data ++ List.replicate p p).length - p = data.length by omega,
    List.take_left' rfl]
  rw [show (data ++ List.replicate p p).length - p = data.length by omega,
    List.drop_left' rfl]
  intro x hx
  exact List.eq_of_mem_replicate hx

lemma blocks16_flatten_inv : ∀ (cs : List (List Nat)), (∀ b ∈ cs, b.length = 16) →
    blocks16 cs.flatten = cs := by
  intro cs
  induction cs with
  | nil => intro _; rfl
  | cons c t ih =>
    intro h
    have hc : c.length = 16 := h c (by simp)
    have hne : (c :: t).flatten ≠ [] := by
      simp only [List.flatten_cons]
      intro hcontra
      have := congrArg List.length hcontra
      simp [hc] at this
    rw [List.flatten_cons] at hne ⊢
    rw [blocks16_cons _ hne, List.take_left' hc, List.drop_left' hc,
      ih (fun b hb => h b (by simp [hb]))]

lemma cbc_blocks_roundtrip (E D : List Nat → List Nat)
    (hE : ∀ b, b.length = 16 → (E b).length = 16)
    (hDE : ∀ b, D (E b) = b) :
    ∀ (bs : List (List Nat)) (chain : List Nat), chain.length = 16 →
      (∀ b ∈ bs, b.length = 16) →
      (cbc_dec_blocks D chain (cbc_enc_blocks E chain bs).1).1 = bs := by
  intro bs
  induction bs with
  | nil => intro chain _ _; rfl
  | cons b t ih =>
    intro chain hc hb
    have hbl : b.length = 16 := hb b (by simp)
    have hcl : (E (xor_block chain b)).length = 16 :=
      hE _ (by simp [length_xor_block, hc, hbl])
    simp only [cbc_enc_blocks, cbc_dec_blocks]
    rw [hDE]
    congr 1
    · exact xor_block_cancel chain b (by omega)
    · exact ih (E (xor_block chain b)) hcl (fun x hx => hb x (by simp [hx]))

lemma single_chunk_roundtrip (E D : List Nat → List Nat)
    (hE : ∀ b, b.length = 16 → (E b).length = 16)
    (hDE : ∀ b, D (E b) = b)
    (iv input : List Nat) (hiv : iv.length = 16)
    (hpos : 0 < input.length)
    (hsize : input.length + (16 - input.length % 16) < 1024) :
    ∃ ct, (do_crypt true E D pad_prim depad_prim iv input).1 = some ct ∧
      (do_crypt false E D pad_prim depad_prim iv ct).1 = some input := by
  have hlt : input.length < 1024 := by omega
  have hm : input.length % 16 < 16 := Nat.mod_lt _ (by omega)
  have hpadp : pad_prim input
      = some (input ++ List.replicate (16 - input.length % 16) (16 - input.length % 16)) := by
    unfold pad_prim padding_pad
    dsimp only
    rw [if_pos (by omega)]
  have hdata : s_pkcs7_pad pad_prim depad_prim input true
      = input ++ List.replicate (16 - input.length % 16) (16 - input.length % 16) := by
    simp [s_pkcs7_pad, hpadp]
  set data := input ++ List.replicate (16 - input.length % 16) (16 - input.length % 16)
    with hdatadef
  have hdlen : data.length = input.length + (16 - input.length % 16) := by
    simp [hdatadef]
  have hdmod : data.length % 16 = 0 := by
    rw [hdlen]; omega
  have hdatab := blocks16_all16 data hdmod
  have hspec := cbc_enc_blocks_spec E hE (blocks16 data) iv hiv hdatab
  set ct := (cbc_enc_blocks E iv (blocks16 data)).1.flatten with hctdef
  have hcbcenc : cbc_encrypt E iv data
      = some (ct, (cbc_enc_blocks E iv (blocks16 data)).2) := by
    rw [cbc_encrypt, if_pos hdmod]
  have hctlen : ct.length = data.length := by
    rw [hctdef, flatten_all16_length _ hspec.2.1, hspec.1]
    have h2 := flatten_all16_length (blocks16 data) hdatab
    rw [blocks16_flatten] at h2
    omega
  have hencres : (do_crypt true E D pad_prim depad_prim iv input).1 = some ct := by
    unfold do_crypt
    simp only [do_crypt_loop]
    rw [if_neg (by omega), if_neg (by omega), if_pos trivial, hdata, hcbcenc]
  refine ⟨ct, hencres, ?_⟩
  have hctmod : ct.length % 16 = 0 := by rw [hctlen]; exact hdmod
  have hblocks_ct : blocks16 ct = (cbc_enc_blocks E iv (blocks16 data)).1 :=
    blocks16_flatten_inv _ hspec.2.1
  have hdec : cbc_decrypt D iv ct
      = some ((cbc_dec_blocks D iv (blocks16 ct)).1.flatten,
          (cbc_dec_blocks D iv (blocks16 ct)).2) := by
    rw [cbc_decrypt, if_pos hctmod]
  have hpt : (cbc_dec_blocks D iv (blocks16 ct)).1.flatten = data := by
    rw [hblocks_ct, cbc_blocks_roundtrip E D hE hDE (blocks16 data) iv hiv hdatab,
      blocks16_flatten]
  have hdepad : padding_depad data = some input := depad_pad input
  have hsp : s_pkcs7_pad pad_prim depad_prim
      ((cbc_dec_blocks D iv (blocks16 ct)).1.flatten) false = input := by
    rw [hpt]
    simp [s_pkcs7_pad, depad_prim, hdepad]
  unfold do_crypt
  simp only [do_crypt_loop]
  rw [if_neg (by omega), if_neg (by omega), if_neg (by simp), hdec]
  dsimp only
  rw [hsp, if_neg (by omega)]

lemma mem_barf_actions (pw inOpen : Bool) :
    MainAction.closeOut ∈ barf_actions pw inOpen true ∧
    MainAction.removeOut ∈ barf_actions pw inOpen true := by
  cases pw <;> cases inOpen <;> decide

/-- Claim C1: the round trip decrypt of encrypt is claimed to reproduce
every plaintext, including the empty one.  The code refutes this at the
empty plaintext: an encrypt run of do_crypt over the empty input
returns success having written no bytes at all (the first read returns
zero bytes and the loop exits before any padding is produced), and a
decrypt run over that empty ciphertext stream fails, so the round trip
does not return the original plaintext. -/
theorem c1_roundtrip_fails_on_empty :
    do_crypt true id id pad_prim depad_prim (List.replicate 16 0) [] = (some [], 0) ∧
    do_crypt false id id pad_prim depad_prim (List.replicate 16 0) [] = (none, 0) := by
  decide

/-- Claim C2: an encrypt run over a length-0 input is claimed to write
exactly one full padded cipher block, and an encrypt run over an input
whose length is a multiple of the block size is claimed to write one
block more than the input.  The code refutes both parts: a length-0
input produces 0 bytes of output, and a 1024-byte input (a multiple of
the 16-byte block size) produces exactly 1024 bytes of output rather
than 1040, because the final full-chunk read does not observe
end-of-file and no padding is ever applied. -/
theorem c2_boundary_output_lengths :
    (do_crypt true id id pad_prim depad_prim (List.replicate 16 0) []).1.map List.length
      = some 0 ∧
    (do_crypt true id id pad_prim depad_prim (List.replicate 16 0)
        (List.replicate 1024 37)).1.map List.length
      = some 1024 := by
  decide

/-- Counterexample to claim C3 as stated: a decrypt run of do_crypt
over a 1024-byte stream performs zero unpadding operations (the ghost
counter is 0), refuting the claim that exactly one padding or
unpadding operation occurs in every run. -/
theorem c3_counterexample :
    do_crypt false id id pad_prim depad_prim (List.replicate 16 0) (List.replicate 1024 1)
      = (none, 0) := by
  decide

/-- Claim C3 as amended: in every run of do_crypt at most one padding
or unpadding operation is performed, and it is performed only on a
final chunk whose read observes end-of-input (so never when the input
length is a multiple of the 1024-byte chunk size); every earlier chunk
passes through the cipher with its length unchanged, which shows in
the output lengths: a successful encrypt run writes the input plus one
padding tail on the final partial chunk, and a successful decrypt run
writes the input minus a positive padding count bounded by the final
partial chunk. -/
theorem c3_padding_op_placement (E D : List Nat → List Nat)
    (hE : ∀ b, b.length = 16 → (E b).length = 16)
    (hD : ∀ b, b.length = 16 → (D b).length = 16)
    (iv input : List Nat) (hiv : iv.length = 16) :
    ((do_crypt true E D pad_prim depad_prim iv input).2
      = if input.length % 1024 = 0 then 0 else 1) ∧
    ((do_crypt false E D pad_prim depad_prim iv input).2 ≤ 1) ∧
    (input.length % 1024 = 0 → (do_crypt false E D pad_prim depad_prim iv input).2 = 0) ∧
    (∀ out, (do_crypt true E D pad_prim depad_prim iv input).1 = some out →
      out.length = (if input.length % 1024 = 0 then input.length
        else input.length + (16 - input.length % 16))) ∧
    (∀ out, (do_crypt false E D pad_prim depad_prim iv input).1 = some out →
      input.length % 1024 ≠ 0 ∧
      ∃ p, 1 ≤ p ∧ p ≤ input.length % 1024 ∧ out.length = input.length - p) := by
  obtain ⟨eo, henc, hlen⟩ := enc_char E D hE (input.length + 1) iv input (by omega) hiv
  obtain ⟨ha, hb, hco⟩ := dec_char E D hD (input.length + 1) iv input (by omega) hiv
  unfold do_crypt
  refine ⟨by rw [henc], ha, ?_, ?_, hco⟩
  · intro hz
    rw [hb hz]
  · intro out hout
    rw [henc] at hout
    injection hout with hout
    rw [← hout]
    exact hlen

/-- Witness for the amended claim C3 at a concrete input: encrypting 20
bytes performs exactly one padding operation. -/
theorem c3_witness :
    (do_crypt true id id pad_prim depad_prim (List.replicate 16 0) (List.replicate 20 1)).2
      = 1 := by
  have h := (c3_padding_op_placement id id (fun b hb => by simpa using hb)
    (fun b hb => by simpa using hb) (List.replicate 16 0) (List.replicate 20 1)
    (by simp)).1
  simpa using h

/-- Claim C4: for an input whose length is a non-zero multiple of the
1024-byte chunk size, padding is claimed to be applied on the same
iteration that reads the final non-empty chunk.  The code refutes
this: encrypting a 1024-byte input performs zero padding operations
(the ghost counter is 0) and still returns success, writing only the
1024 unpadded cipher bytes, because the final full-chunk read does not
observe end-of-file and the following iteration reads zero bytes and
returns immediately. -/
theorem c4_chunk_multiple_skips_padding :
    do_crypt true id id pad_prim depad_prim (List.replicate 16 0) (List.replicate 1024 0)
      = (some (List.replicate 1024 0), 0) := by
  decide

/-- Claim C5: a failing padding step during an encrypt run is claimed
to abort the run with an error.  The code refutes this: with a padding
primitive that fails, the encrypt run over a one-byte input treats the
failure value 0 as zero bytes of padded data, enciphers nothing,
writes nothing, and returns success, silently dropping the final
chunk.  The ghost counter records that the padding step was invoked
exactly once. -/
theorem c5_pad_failure_yields_success :
    do_crypt true id id (fun _ => none) depad_prim (List.replicate 16 0) [5]
      = (some [], 1) := by
  decide

/-- Counterexample to claim C6 as stated: on a 16-byte stream whose
first 8 bytes differ from the magic, parse_openssl_header consumes
exactly 8 bytes, not 16. -/
theorem c6_counterexample :
    parse_openssl_header (List.replicate 16 0) = (none, 8) := by
  decide

/-- Claim C6 as amended: parse_openssl_header consumes at most 16
bytes; it consumes exactly 16 on success, and on failure it consumes
fewer: all available bytes when a read comes up short, and exactly 8
bytes when the magic comparison fails. -/
theorem c6_bytes_consumed (input : List Nat) :
    (parse_openssl_header input).2
      = (if input.length < 8 then input.length
         else if input.take 8 ≠ salt_header then 8
         else min 16 input.length) ∧
    (parse_openssl_header input).2 ≤ 16 ∧
    ((parse_openssl_header input).1.isSome → (parse_openssl_header input).2 = 16) := by
  unfold parse_openssl_header
  split_ifs with h1 h2 h3 <;> simp <;> omega

/-- Counterexample to claim C7 as stated: a decrypt run over a single
16-byte chunk that deciphers to a full block of padding fails at
stream termination even though the unpadding primitive succeeds on
that block (returning the empty remainder), so the run fails in a
termination case that is neither a zero-byte read nor an unpad
failure. -/
theorem c7_counterexample :
    do_crypt false id id pad_prim depad_prim (List.replicate 16 0) (List.replicate 16 16)
      = (none, 1) ∧
    padding_depad (List.replicate 16 16) = some [] := by
  decide

/-- Claim C7 as amended: in decrypt mode do_crypt fails at stream
termination when a read returns zero bytes, and when the unpad step on
the final deciphered chunk leaves zero bytes, whether because the
unpadding primitive failed or because the chunk was entirely padding;
when the unpad step leaves a non-zero remainder the run succeeds with
it.  Conversely, in encrypt mode a zero-byte read terminates the run
with success. -/
theorem c7_termination_cases (E D : List Nat → List Nat) (chain input : List Nat) :
    do_crypt false E D pad_prim depad_prim chain [] = (none, 0) ∧
    do_crypt true E D pad_prim depad_prim chain [] = (some [], 0) ∧
    (0 < input.length → input.length < 1024 →
      ∀ pt chain2, cbc_decrypt D chain input = some (pt, chain2) →
        (do_crypt false E D pad_prim depad_prim chain input).1
          = (if (s_pkcs7_pad pad_prim depad_prim pt false).length = 0 then none
             else some (s_pkcs7_pad pad_prim depad_prim pt false))) := by
  refine ⟨by simp [do_crypt, do_crypt_loop], by simp [do_crypt, do_crypt_loop], ?_⟩
  intro hpos hlt pt chain2 hcbc
  unfold do_crypt
  simp only [do_crypt_loop]
  rw [if_neg (by omega), if_neg (by omega), if_neg (by simp), hcbc]
  dsimp only
  split_ifs with h
  · rfl
  · rfl

/-- Witness for the amended claim C7 at a concrete input: the decrypt
run over a full-padding block fails. -/
theorem c7_witness :
    (do_crypt false id id pad_prim depad_prim (List.replicate 16 0)
      (List.replicate 16 16)).1 = none := by
  have h := (c7_termination_cases id id (List.replicate 16 0) (List.replicate 16 16)).2.2
    (by decide) (by decide) (List.replicate 16 16) (List.replicate 16 16) (by decide)
  rw [h]
  decide

/-- Claim C8: parsing a stream that starts with the 8-byte magic
followed by an 8-byte salt returns exactly that salt with success and
consumes 16 bytes, and parsing any stream whose first 8 bytes differ
from the magic fails. -/
theorem c8_header_roundtrip :
    (∀ salt rest : List Nat, salt.length = 8 →
      parse_openssl_header (salt_header ++ (salt ++ rest)) = (some salt, 16)) ∧
    (∀ input : List Nat, input.take 8 ≠ salt_header →
      (parse_openssl_header input).1 = none) := by
  constructor
  · intro salt rest hs
    have h8 : salt_header.length = 8 := by decide
    have hlen : (salt_header ++ (salt ++ rest)).length = 16 + rest.length := by
      simp [List.length_append, h8, hs]
      omega
    unfold parse_openssl_header
    rw [if_neg (by omega), if_neg (by rw [List.take_left' h8]; simp),
      if_neg (by omega), List.drop_left' h8, List.take_left' hs]
  · intro input hne
    unfold parse_openssl_header
    split_ifs with h1
    · rfl
    · rfl

/-- Witness for claim C8 at concrete inputs: a header carrying the
salt of eight 7 bytes parses back to that salt, and a stream starting
with a single 0 byte fails to parse. -/
theorem c8_witness :
    parse_openssl_header (salt_header ++ (List.replicate 8 7 ++ []))
      = (some (List.replicate 8 7), 16) ∧
    (parse_openssl_header [0]).1 = none :=
  ⟨c8_header_roundtrip.1 (List.replicate 8 7) [] (by decide),
   c8_header_roundtrip.2 [0] (by decide)⟩

/-- Claim C9: the keyiv buffer is claimed to be zero-initialized at
allocation and cleared again on every exit path.  The code refutes
this: on the failure path where the input file cannot be opened the
buffer is never zeroed at all, and on the fully successful run the one
and only zeromem of the buffer happens before key derivation, so no
exit path clears the derived key material before the process exits. -/
theorem c9_keyiv_not_cleared :
    main_run env_no_infile = ([], -1) ∧
    (main_run env_success).1
      = [MainAction.openIn, MainAction.openOut, MainAction.getSaltRng,
         MainAction.registerHash, MainAction.zeroKeyiv, MainAction.deriveKey,
         MainAction.writeHeader, MainAction.writeSalt, MainAction.runCrypt,
         MainAction.closeIn, MainAction.closeOut] ∧
    (main_run env_success).2 = 0 ∧
    (main_run env_success).1.count MainAction.zeroKeyiv = 1 := by
  decide

/-- Claim C10: every failing exit of main that happens after the
output file was opened closes and removes the output file before the
process exits, so no failure path leaves a partial output file
behind. -/
theorem c10_failure_removes_output (e : MainEnv)
    (hfail : (main_run e).2 ≠ 0)
    (hopen : MainAction.openOut ∈ (main_run e).1) :
    MainAction.closeOut ∈ (main_run e).1 ∧ MainAction.removeOut ∈ (main_run e).1 := by
  simp only [main_run] at hfail hopen ⊢
  by_cases h1 : 1 < e.argc ∧ e.arg1_has_h = true
  · rw [if_pos h1] at hfail
    exact absurd rfl hfail
  · rw [if_neg h1] at hfail hopen ⊢
    by_cases h2 : ¬(5 ≤ e.argc ∧ e.argc ≤ 6)
    · rw [if_pos h2] at hopen
      simp [barf_actions] at hopen
    · rw [if_neg h2] at hfail hopen ⊢
      by_cases h3 : ¬(e.arg1_enc = true ∨ e.arg1_dec = true)
      · rw [if_pos h3] at hopen
        simp [barf_actions] at hopen
      · rw [if_neg h3] at hfail hopen ⊢
        by_cases h4 : ¬e.in_opens = true
        · rw [if_pos h4] at hopen
          simp [barf_actions] at hopen
        · rw [if_neg h4] at hfail hopen ⊢
          by_cases h5 : ¬e.out_opens = true
          · rw [if_pos h5] at hopen
            simp [barf_actions] at hopen
          · rw [if_neg h5] at hfail hopen ⊢
            by_cases h6 : ¬(if e.argc = 6 then e.salt_decode_ok
                else if e.arg1_enc = true then e.rng_ok else e.header_ok) = true
            · rw [if_pos h6]
              refine ⟨?_, ?_⟩ <;> simp [barf_actions]
            · rw [if_neg h6] at hfail ⊢
              by_cases h7 : ¬e.hash_ok = true
              · rw [if_pos h7]
                refine ⟨?_, ?_⟩ <;> simp [barf_actions]
              · rw [if_neg h7] at hfail ⊢
                by_cases h8 : e.pass_dash = true ∧ ¬e.getpw_ok = true
                · rw [if_pos h8]
                  refine ⟨?_, ?_⟩ <;> simp [barf_actions]
                · rw [if_neg h8] at hfail ⊢
                  by_cases h9 : ¬e.kdf_ok = true
                  · rw [if_pos h9]
                    refine ⟨?_, ?_⟩ <;> simp [barf_actions]
                  · rw [if_neg h9] at hfail ⊢
                    by_cases h10 : e.arg1_enc = true
                    · rw [if_pos h10] at hfail ⊢
                      by_cases h11 : ¬e.write_header_ok = true
                      · rw [if_pos h11]
                        refine ⟨?_, ?_⟩ <;> simp [barf_actions]
                      · rw [if_neg h11] at hfail ⊢
                        by_cases h12 : ¬e.write_salt_ok = true
                        · rw [if_pos h12]
                          refine ⟨?_, ?_⟩ <;> simp [barf_actions]
                        · rw [if_neg h12] at hfail ⊢
                          by_cases h13 : ¬e.crypt_ok = true
                          · rw [if_pos h13]
                            refine ⟨?_, ?_⟩ <;> simp [barf_actions]
                          · rw [if_neg h13] at hfail
                            exact absurd rfl hfail
                    · rw [if_neg h10] at hfail ⊢
                      by_cases h13 : ¬e.crypt_ok = true
                      · rw [if_pos h13]
                        refine ⟨?_, ?_⟩ <;> simp [barf_actions]
                      · rw [if_neg h13] at hfail
                        exact absurd rfl hfail

/-- Witness for claim C10 at a concrete run: a decrypting run whose
do_crypt step fails closes and removes the output file. -/
theorem c10_witness :
    MainAction.closeOut ∈ (main_run env_crypt_fails).1 ∧
    MainAction.removeOut ∈ (main_run env_crypt_fails).1 :=
  c10_failure_removes_output env_crypt_fails (by decide) (by decide)
